import Mathlib

/-!
Verification development for the fractalrhomb content cache
(`src/fractalthorns_api.py`, class `FractalthornsAPI`).

Times are modelled as natural numbers (seconds since the epoch); each call
to `datetime.now(dt.UTC)` reads a monotone clock carried in the state and
advances it.  Python dictionaries are modelled as insertion-ordered
association lists, matching CPython semantics (lookup finds the first
binding; assignment replaces in place, else appends).  Cache payloads are
opaque (`Val`); the fields the code itself inspects (`name`, `solved`) are
modelled explicitly.
-/

namespace Fractalrhomb

/-- Cache categories, mirroring `FractalthornsAPI.CacheTypes`. -/
inductive CacheType where
  | newsItems
  | images
  | imageContents
  | imageDescriptions
  | sketches
  | sketchContents
  | chapters
  | records
  | recordContents
  | searchResults
  | currentSplash
  | splashPages
  | fullRecordContents
  | fullImageDescriptions
  | cacheMetadata
deriving DecidableEq, Repr

/-- Seconds in `n` hours (for `dt.timedelta(hours=n)`). -/
def hoursSec (n : Nat) : Nat := n * 3600

/-- Seconds in `n` minutes (for `dt.timedelta(minutes=n)`). -/
def minutesSec (n : Nat) : Nat := n * 60

/-- `FractalthornsAPI.__CACHE_DURATION`, in seconds.
`CACHE_METADATA` has no entry in the Python dict. -/
def cacheDuration : CacheType → Option Nat
  | .newsItems => some (hoursSec 4)
  | .images => some (hoursSec 4)
  | .imageContents => some (hoursSec 24)
  | .imageDescriptions => some (hoursSec 12)
  | .sketches => some (hoursSec 4)
  | .sketchContents => some (hoursSec 24)
  | .chapters => some (hoursSec 4)
  | .records => some (hoursSec 4)
  | .recordContents => some (hoursSec 12)
  | .searchResults => some (hoursSec 4)
  | .currentSplash => some (minutesSec 5)
  | .splashPages => some (minutesSec 5)
  | .fullRecordContents => some (hoursSec 24)
  | .fullImageDescriptions => some (hoursSec 24)
  | .cacheMetadata => none

/-- `FractalthornsAPI.__CACHE_PURGE_COOLDOWN`, in seconds.
`CACHE_METADATA` has no entry in the Python dict. -/
def cachePurgeCooldown : CacheType → Option Nat
  | .newsItems => some (minutesSec 20)
  | .images => some (minutesSec 20)
  | .imageContents => some (minutesSec 120)
  | .imageDescriptions => some (minutesSec 60)
  | .sketches => some (minutesSec 20)
  | .sketchContents => some (minutesSec 120)
  | .chapters => some (minutesSec 20)
  | .records => some (minutesSec 20)
  | .recordContents => some (minutesSec 60)
  | .searchResults => some (minutesSec 20)
  | .currentSplash => some (minutesSec 5)
  | .splashPages => some (minutesSec 5)
  | .fullRecordContents => some (minutesSec 120)
  | .fullImageDescriptions => some (minutesSec 120)
  | .cacheMetadata => none

/-- Duration of a category (every category the code queries has an entry). -/
def durationOf (c : CacheType) : Nat := (cacheDuration c).getD 0

/-- Cooldown of a category (every category the code queries has an entry). -/
def cooldownOf (c : CacheType) : Nat := (cachePurgeCooldown c).getD 0

theorem cachePurgeCooldown_isSome {c : CacheType} (h : c ≠ .cacheMetadata) :
    cachePurgeCooldown c = some (cooldownOf c) := by
  cases c <;> simp [cachePurgeCooldown, cooldownOf] at h ⊢

/-- Decidable equality for `Except`, used to evaluate concrete runs. -/
instance {E A : Type} [DecidableEq E] [DecidableEq A] :
    DecidableEq (Except E A) := fun x y =>
  match x, y with
  | .ok a, .ok b =>
    if h : a = b then .isTrue (by rw [h])
    else .isFalse (by intro hc; cases hc; exact h rfl)
  | .error a, .error b =>
    if h : a = b then .isTrue (by rw [h])
    else .isFalse (by intro hc; cases hc; exact h rfl)
  | .ok _, .error _ => .isFalse (by intro hc; cases hc)
  | .error _, .ok _ => .isFalse (by intro hc; cases hc)

/-! ## Insertion-ordered dictionaries (CPython `dict`) -/

/-- Dictionary lookup: first binding of the key wins. -/
def dictGet {K V : Type} [DecidableEq K] : List (K × V) → K → Option V
  | [], _ => none
  | (k, v) :: rest, q => if k = q then some v else dictGet rest q

/-- `d[k] = v` / `d.update(\x7bk: v\x7d)`: if the key is present its (unique,
first) binding is replaced in place, keeping insertion order; otherwise the
pair is appended at the end (CPython dict assignment). -/
def dictSet {K V : Type} [DecidableEq K] : List (K × V) → K → V → List (K × V)
  | [], k, v => [(k, v)]
  | (k1, v1) :: rest, k, v =>
    if k1 = k then (k, v) :: rest else (k1, v1) :: dictSet rest k v

theorem dictGet_dictSet_self {K V : Type} [DecidableEq K]
    (m : List (K × V)) (k : K) (v : V) : dictGet (dictSet m k v) k = some v := by
  induction m with
  | nil => simp [dictSet, dictGet]
  | cons p rest ih =>
    obtain ⟨k1, v1⟩ := p
    by_cases hp : k1 = k
    · simp [dictSet, hp, dictGet]
    · simp [dictSet, hp, dictGet, ih]

theorem dictGet_dictSet_ne {K V : Type} [DecidableEq K]
    (m : List (K × V)) (k q : K) (v : V) (hne : k ≠ q) :
    dictGet (dictSet m k v) q = dictGet m q := by
  induction m with
  | nil => simp [dictSet, dictGet, if_neg hne]
  | cons p rest ih =>
    obtain ⟨k1, v1⟩ := p
    by_cases hp : k1 = k
    · subst hp
      simp [dictSet, dictGet, if_neg hne]
    · by_cases hq : k1 = q
      · subst hq
        simp [dictSet, hp, dictGet]
      · simp [dictSet, hp, dictGet, hq, ih]

theorem mem_dictSet {K V : Type} [DecidableEq K]
    {m : List (K × V)} {k : K} {v : V} {p : K × V} (h : p ∈ dictSet m k v) :
    p = (k, v) ∨ p ∈ m := by
  induction m with
  | nil =>
    simp [dictSet] at h
    exact Or.inl h
  | cons q rest ih =>
    obtain ⟨k1, v1⟩ := q
    by_cases hp : k1 = k
    · simp [dictSet, hp] at h
      rcases h with h | h
      · exact Or.inl (by simp [h])
      · exact Or.inr (List.mem_cons_of_mem _ h)
    · simp only [dictSet, if_neg hp, List.mem_cons] at h
      rcases h with h | h
      · exact Or.inr (by simp [h])
      · rcases ih h with h1 | h1
        · exact Or.inl h1
        · exact Or.inr (List.mem_cons_of_mem _ h1)

theorem dictGet_mem {K V : Type} [DecidableEq K]
    {m : List (K × V)} {k : K} {v : V} (h : dictGet m k = some v) : (k, v) ∈ m := by
  induction m with
  | nil => simp [dictGet] at h
  | cons p rest ih =>
    by_cases hp : p.1 = k
    · simp only [dictGet, if_pos hp] at h
      obtain ⟨k1, v1⟩ := p
      simp only at hp
      cases h
      subst hp
      exact List.mem_cons_self ..
    · simp only [dictGet, if_neg hp] at h
      exact List.mem_cons_of_mem _ (ih h)

/-! ## Payload-level objects

Only the fields the cache code itself reads are modelled; everything else
about a payload is the opaque `Val`. -/

/-- A record object (`ftd.Record`): the code reads `.name` and `.solved`. -/
structure RecordObj (Val : Type) where
  name : String
  solved : Bool
  payload : Val
deriving DecidableEq, Repr

/-- A chapter object (`ftd.Chapter`): the code reads `.name` and `.records`. -/
structure ChapterObj (Val : Type) where
  name : String
  records : List (RecordObj Val)
deriving DecidableEq, Repr

/-- An image object (`ftd.Image`): the code reads `.name`. -/
structure ImageObj (Val : Type) where
  name : String
  payload : Val
deriving DecidableEq, Repr

/-! ## The cache state (`FractalthornsAPI.__init__` instance fields) -/

/-- The mutable state of `FractalthornsAPI`, plus a monotone clock supplying
the values returned by successive `datetime.now(dt.UTC)` calls. -/
structure APIState (Val : Type) where
  clock : Nat
  cachedNewsItems : Option (List Val × Nat)
  cachedImages : List (Option String × (ImageObj Val × Nat))
  cachedImageContents : List (Option String × (Val × Nat))
  cachedImageDescriptions : List (String × (Val × Nat))
  cachedSketches : List (Option String × (Val × Nat))
  cachedSketchContents : List (Option String × (Val × Nat))
  cachedChapters : Option (List (String × ChapterObj Val) × Nat)
  cachedRecords : List (Option String × (RecordObj Val × Nat))
  cachedRecordContents : List (Option String × (Val × Nat))
  cachedSearchResults : List ((List Char × List Char) × (List Val × Nat))
  cachedCurrentSplash : Option (Val × Nat)
  cachedSplashPages : List (Int × (Val × Nat))
  cachedFullRecordContents : Option (List (String × Val) × Nat)
  cachedFullImageDescriptions : Option (List (String × Val) × Nat)
  lastAllImagesCache : Option Nat
  lastAllSketchesCache : Option Nat
  lastFullEpisodicCache : Option Nat
  lastCachePurge : List (CacheType × Nat)
  cacheSaved : List (CacheType × Bool)
deriving DecidableEq, Repr

/-- Errors raised by the modelled operations. -/
inductive APIErr where
  /-- `CachePurgeError(CACHE_PURGE, allowed_time)` — too soon since last purge. -/
  | tooSoon (allowedTime : Nat)
  /-- `CachePurgeError(INVALID_CACHE)` — not a purgeable cache type. -/
  | invalidCache
  /-- Python `KeyError` (missing dict key). -/
  | keyError
  /-- Python `TypeError` (e.g. `None + timedelta`). -/
  | typeError
  /-- Python `RuntimeError("dictionary changed size during iteration")`. -/
  | dictChanged
  /-- Python `StopIteration` from `next(iter(...))` on an empty dict. -/
  | stopIteration
  /-- `fte.ItemsUngatheredError`. -/
  | itemsUngathered
  /-- `fte.CacheFetchError`. -/
  | cacheFetch
  /-- An upstream `aiohttp` client error, propagated opaquely. -/
  | upstreamErr
deriving DecidableEq, Repr

/-! ## `purge_cache` -/

/-- The `match cache:` block of `purge_cache` (lines 353-391): clears the
category's storage.  `CACHE_METADATA` has no arm in the source `match`
(its `case _:` raises; that raise lives in `purge_cache` below, and this
function then leaves the state untouched).  Note the `SKETCHES` and
`SKETCH_CONTENTS` arms clear `__cached_images` / `__cached_image_contents`,
exactly as the source does. -/
def clearState {Val : Type} (cache : CacheType) (s : APIState Val) :
    APIState Val :=
  match cache with
  | .newsItems => { s with cachedNewsItems := none }
  | .images => { s with cachedImages := [], lastAllImagesCache := none }
  | .imageContents => { s with cachedImageContents := [] }
  | .imageDescriptions => { s with cachedImageDescriptions := [] }
  | .sketches => { s with cachedImages := [], lastAllSketchesCache := none }
  | .sketchContents => { s with cachedImageContents := [] }
  | .chapters => { s with cachedChapters := none, lastFullEpisodicCache := none }
  | .records => { s with cachedRecords := [] }
  | .recordContents => { s with cachedRecordContents := [] }
  | .searchResults => { s with cachedSearchResults := [] }
  | .currentSplash => { s with cachedCurrentSplash := none }
  | .splashPages => { s with cachedSplashPages := [] }
  | .fullRecordContents => { s with cachedFullRecordContents := none }
  | .fullImageDescriptions => { s with cachedFullImageDescriptions := none }
  | .cacheMetadata => s

theorem clearState_clock {Val : Type} (cache : CacheType) (s : APIState Val) :
    (clearState cache s).clock = s.clock := by cases cache <;> rfl

theorem clearState_lastCachePurge {Val : Type} (cache : CacheType)
    (s : APIState Val) :
    (clearState cache s).lastCachePurge = s.lastCachePurge := by
  cases cache <;> rfl

/-- `FractalthornsAPI.purge_cache(cache, force_purge=...)` (lines 321-395).
The cooldown check short-circuits exactly like the Python `and` chain: the
clock is read (and advanced) only when the comparison is evaluated.  On
success `__last_cache_purge[cache]` is set from a second `now()` call. -/
def purge_cache {Val : Type} (s : APIState Val) (cache : CacheType)
    (forcePurge : Bool) : APIState Val × Except APIErr Unit :=
  let checked : APIState Val × Option APIErr :=
    if forcePurge then (s, none)
    else
      match dictGet s.lastCachePurge cache with
      | none => (s, none)
      | some t =>
        let s1 := { s with clock := s.clock + 1 }
        match cachePurgeCooldown cache with
        | none => (s1, some .keyError)
        | some cd =>
          if s.clock < t + cd then (s1, some (.tooSoon (t + cd))) else (s1, none)
  match checked with
  | (s0, some e) => (s0, .error e)
  | (s0, none) =>
    if cache = .cacheMetadata then (s0, .error .invalidCache)
    else
      let s1 := clearState cache s0
      ({ s1 with
          lastCachePurge := dictSet s1.lastCachePurge cache s1.clock,
          clock := s1.clock + 1 }, .ok ())

/-- Forced purge of a category that has a `match` arm always succeeds; this
is the state it produces (used by the bulk-gather code, which calls
`purge_cache(..., force_purge=True)`). -/
def purgeForced {Val : Type} (s : APIState Val) (cache : CacheType) :
    APIState Val := (purge_cache s cache true).1

/-! ## `get_cached_items` -/

/-- The keyed-category branch of `get_cached_items` (lines 569-573):
`for i, j in cached_items.items(): if stale: cached_items.pop(i) else:
cached_items[i] = (*j, expiry)`.  The boolean argument mirrors CPython's
dict-iterator size check: once a `pop` has changed the dict's size, the
very next call to the iterator raises
`RuntimeError("dictionary changed size during iteration")` — even the final
call that would otherwise raise `StopIteration`. -/
def staleFilterLoop {K V : Type} (dur now : Nat) (ignoreStale : Bool) :
    List (K × (V × Nat)) → Bool → Except APIErr (List (K × (V × Nat × Nat)))
  | [], changed => if changed then .error .dictChanged else .ok []
  | (k, v, t) :: rest, changed =>
    if changed then .error .dictChanged
    else if ignoreStale = false ∧ now > t + dur then
      staleFilterLoop dur now ignoreStale rest true
    else
      match staleFilterLoop dur now ignoreStale rest changed with
      | .error e => .error e
      | .ok out => .ok ((k, (v, t, t + dur)) :: out)

/-- The singleton-category branch of `get_cached_items` (lines 540-556):
`None` stays `None`; a stale tuple yields `None` unless `ignore_stale`;
otherwise the expiry time is appended. -/
def staleSingleton {V : Type} (dur now : Nat) (ignoreStale : Bool) :
    Option (V × Nat) → Option (V × Nat × Nat)
  | none => none
  | some (v, t) =>
    if ignoreStale = false ∧ now > t + dur then none else some (v, t, t + dur)

/-- The value of `get_cached_items(CACHE_METADATA)`'s
`"last_cache_purge"` comprehension:
`\x7bi: (j, j + self.__CACHE_PURGE_COOLDOWN[i]) for i, j in last_cache_purge.items()\x7d`
(`KeyError` if some key has no cooldown entry). -/
def purgeCooldownItems :
    List (CacheType × Nat) → Except APIErr (List (CacheType × (Nat × Nat)))
  | [] => .ok []
  | (c, t) :: rest =>
    match cachePurgeCooldown c with
    | none => .error .keyError
    | some cd =>
      match purgeCooldownItems rest with
      | .error e => .error e
      | .ok out => .ok ((c, (t, t + cd)) :: out)

/-- The dictionary returned by `get_cached_items(CACHE_METADATA)`. -/
structure CacheMetadataItems where
  lastAllImages : Nat × Nat
  lastAllSketches : Nat × Nat
  lastFullEpisodic : Nat × Nat
  lastPurges : List (CacheType × (Nat × Nat))
deriving DecidableEq, Repr

/-- The `CACHE_METADATA` arm of `get_cached_items` (lines 509-534).  The
dict literal is evaluated top to bottom; each of the three
`last_..._cache + CACHE_DURATION[...]` sums raises `TypeError` when the
stored timestamp is `None` (`None + timedelta`). -/
def get_cached_items_metadata {Val : Type} (s : APIState Val) :
    Except APIErr CacheMetadataItems :=
  match s.lastAllImagesCache with
  | none => .error .typeError
  | some ti =>
    match s.lastAllSketchesCache with
    | none => .error .typeError
    | some ts =>
      match s.lastFullEpisodicCache with
      | none => .error .typeError
      | some te =>
        match purgeCooldownItems s.lastCachePurge with
        | .error e => .error e
        | .ok purges =>
          .ok { lastAllImages := (ti, ti + durationOf .images),
                lastAllSketches := (ts, ts + durationOf .sketches),
                lastFullEpisodic := (te, te + durationOf .chapters),
                lastPurges := purges }

/-- `get_cached_items(IMAGES, ignore_stale=...)` (a keyed category). -/
def get_cached_items_images {Val : Type} (s : APIState Val)
    (ignoreStale : Bool) :
    Except APIErr (List (Option String × (ImageObj Val × Nat × Nat))) :=
  staleFilterLoop (durationOf .images) s.clock ignoreStale s.cachedImages false

/-- `get_cached_items(SEARCH_RESULTS, ignore_stale=...)` (a keyed category). -/
def get_cached_items_search {Val : Type} (s : APIState Val)
    (ignoreStale : Bool) :
    Except APIErr (List ((List Char × List Char) × (List Val × Nat × Nat))) :=
  staleFilterLoop (durationOf .searchResults) s.clock ignoreStale
    s.cachedSearchResults false

/-- `get_cached_items(NEWS_ITEMS, ignore_stale=...)` (a singleton category). -/
def get_cached_items_news {Val : Type} (s : APIState Val)
    (ignoreStale : Bool) : Option (List Val × Nat × Nat) :=
  staleSingleton (durationOf .newsItems) s.clock ignoreStale s.cachedNewsItems

/-! ## Per-item fetch operations (get-or-fetch) -/

/-- The fetch branch of `__get_all_news` (lines 1197-1230): the upstream
request result is supplied as an opaque `Except`; on success the parsed
items are cached with a fresh timestamp and the category is marked dirty;
on failure the exception propagates before any mutation. -/
def newsFetch {Val : Type} (s : APIState Val)
    (upstream : Except Unit (List Val)) :
    APIState Val × Except APIErr (List Val) :=
  match upstream with
  | .error _ => ({ s with clock := s.clock + 1 }, .error .upstreamErr)
  | .ok items =>
    ({ s with
        clock := s.clock + 2,
        cachedNewsItems := some (items, s.clock + 1),
        cacheSaved := dictSet s.cacheSaved .newsItems false }, .ok items)

/-- `FractalthornsAPI.__get_all_news` (lines 1187-1239). -/
def get_all_news {Val : Type} (s : APIState Val)
    (upstream : Except Unit (List Val)) :
    APIState Val × Except APIErr (List Val) :=
  match s.cachedNewsItems with
  | none => newsFetch s upstream
  | some (items, t) =>
    if s.clock > t + durationOf .newsItems then newsFetch s upstream
    else ({ s with clock := s.clock + 1 }, .ok items)

/-- The fetch branch of `__get_single_image` (lines 1257-1304): stores the
fetched image under the requested key, and — when the request was for the
default image (`image is None`) — additionally under the image's own name
with a second fresh timestamp. -/
def imageFetch {Val : Type} (s : APIState Val) (key : Option String)
    (upstream : Except Unit (ImageObj Val)) :
    APIState Val × Except APIErr (ImageObj Val) :=
  match upstream with
  | .error _ => ({ s with clock := s.clock + 1 }, .error .upstreamErr)
  | .ok img =>
    let m1 := dictSet s.cachedImages key (img, s.clock + 1)
    let m2 := if key = none then dictSet m1 (some img.name) (img, s.clock + 2)
              else m1
    ({ s with
        clock := s.clock + 3,
        cachedImages := m2,
        cacheSaved := dictSet s.cacheSaved .images false }, .ok img)

/-- `FractalthornsAPI.__get_single_image` (lines 1241-1314). -/
def get_single_image {Val : Type} (s : APIState Val) (key : Option String)
    (upstream : Except Unit (ImageObj Val)) :
    APIState Val × Except APIErr (ImageObj Val) :=
  match dictGet s.cachedImages key with
  | none => imageFetch s key upstream
  | some (img, t) =>
    if s.clock > t + durationOf .images then imageFetch s key upstream
    else ({ s with clock := s.clock + 1 }, .ok img)

/-- The fetch branch of `__get_paged_splashes` (lines 2185-2208): note that
line 2200 assigns `self.__cached_splash_pages = \x7bpage: (splash_page, now)\x7d`,
replacing the whole dictionary with a single entry. -/
def splashPageFetch {Val : Type} (s : APIState Val) (page : Int)
    (upstream : Except Unit Val) : APIState Val × Except APIErr Val :=
  match upstream with
  | .error _ => ({ s with clock := s.clock + 1 }, .error .upstreamErr)
  | .ok v =>
    ({ s with
        clock := s.clock + 2,
        cachedSplashPages := [(page, (v, s.clock + 1))],
        cacheSaved := dictSet s.cacheSaved .splashPages false }, .ok v)

/-- `FractalthornsAPI.__get_paged_splashes` (lines 2167-2217). -/
def get_paged_splashes {Val : Type} (s : APIState Val) (page : Int)
    (upstream : Except Unit Val) : APIState Val × Except APIErr Val :=
  match dictGet s.cachedSplashPages page with
  | none => splashPageFetch s page upstream
  | some (v, t) =>
    if s.clock > t + durationOf .splashPages then splashPageFetch s page upstream
    else ({ s with clock := s.clock + 1 }, .ok v)

/-! ## Bulk fetches and gathers

Clock advancement counts are schematic (each modelled `datetime.now` call
advances the clock); only the monotonicity of `now` is relied upon. -/

/-- The non-alias values of the images dict:
`[j[0] for i, j in self.__cached_images.items() if i is not None]`. -/
def imagesValues {Val : Type}
    (m : List (Option String × (ImageObj Val × Nat))) : List (ImageObj Val) :=
  m.filterMap fun p => match p.1 with
    | none => none
    | some _ => some p.2.1

/-- `FractalthornsAPI.__get_full_episodic` (lines 1775-1845): on a stale
`__last_full_episodic_cache`, fetches the chapter list, force-purges
`CHAPTERS` and `RECORDS`, stores the chapters dict and every record (all
stamped with the single `cache_time` taken right after the response), adds
the `None` alias as the first record value (`next(iter(...))`, raising
`StopIteration` when there are no records), then sets
`__last_full_episodic_cache` and the dirty flags. -/
def get_full_episodic {Val : Type} (s : APIState Val)
    (upstream : Except Unit (List (ChapterObj Val))) :
    APIState Val × Except APIErr (List (ChapterObj Val)) :=
  let stale := match s.lastFullEpisodicCache with
    | none => true
    | some t => decide (s.clock > t + durationOf .chapters)
  if stale then
    match upstream with
    | .error _ => ({ s with clock := s.clock + 1 }, .error .upstreamErr)
    | .ok chaptersList =>
      let cacheTime := s.clock + 1
      let s1 := purgeForced { s with clock := s.clock + 2 } .chapters
      let s2 := purgeForced s1 .records
      let chaptersDict :=
        chaptersList.foldl (fun m ch => dictSet m ch.name ch) []
      let recordsMap := chaptersDict.foldl
        (fun m p =>
          p.2.records.foldl (fun m2 r => dictSet m2 (some r.name) (r, cacheTime)) m)
        s2.cachedRecords
      match recordsMap.head? with
      | none =>
        ({ s2 with cachedChapters := some (chaptersDict, cacheTime),
                   cachedRecords := recordsMap }, .error .stopIteration)
      | some firstEntry =>
        ({ s2 with
            cachedChapters := some (chaptersDict, cacheTime),
            cachedRecords := dictSet recordsMap none firstEntry.2,
            lastFullEpisodicCache := some cacheTime,
            cacheSaved :=
              dictSet (dictSet (dictSet s2.cacheSaved .chapters false)
                .records false) .cacheMetadata false },
          .ok (chaptersDict.map (·.2)))
  else
    match s.cachedChapters with
    | none => ({ s with clock := s.clock + 1 }, .error .typeError)
    | some (d, _) => ({ s with clock := s.clock + 1 }, .ok (d.map (·.2)))

/-- The fetch branch of `__get_record_text` (lines 1941-1986): stores the
text under the requested key; when the request was for the default record
(`name is None`), additionally stores it under the record's own name, read
from `__cached_records[None]` (`KeyError` when absent).  The dirty flag is
set after the alias block.  The `__get_single_record` title subcall is
abstracted into the supplied payload: it only reads/refreshes the `RECORDS`
cache, which in the bulk-gather flow was just filled by
`__get_full_episodic`. -/
def recordTextFetch {Val : Type} (s : APIState Val) (name : Option String)
    (text : Val) : APIState Val × Except APIErr Val :=
  let s1 := { s with
      cachedRecordContents := dictSet s.cachedRecordContents name (text, s.clock),
      clock := s.clock + 1 }
  if name = none then
    match dictGet s1.cachedRecords none with
    | none => (s1, .error .keyError)
    | some (r, _) =>
      let s2 := { s1 with
          cachedRecordContents :=
            dictSet s1.cachedRecordContents (some r.name) (text, s1.clock),
          clock := s1.clock + 1 }
      ({ s2 with cacheSaved := dictSet s2.cacheSaved .recordContents false },
        .ok text)
  else
    ({ s1 with cacheSaved := dictSet s1.cacheSaved .recordContents false },
      .ok text)

/-- `FractalthornsAPI.__get_record_text` (lines 1925-1996). -/
def get_record_text {Val : Type} (s : APIState Val) (name : Option String)
    (text : Val) : APIState Val × Except APIErr Val :=
  match dictGet s.cachedRecordContents name with
  | none => recordTextFetch s name text
  | some (v, t) =>
    if s.clock > t + durationOf .recordContents then recordTextFetch s name text
    else ({ s with clock := s.clock + 1 }, .ok v)

/-- `FractalthornsAPI.__get_all_images` (lines 1473-1534): on a stale
`__last_all_images_cache`, fetches the image list, takes `cache_time`,
force-purges `IMAGES`, stores every image stamped `cache_time`, adds the
`None` alias as the first dict value, sets `__last_all_images_cache` and
dirty flags.  Returns the non-alias values. -/
def get_all_images {Val : Type} (s : APIState Val)
    (upstream : Except Unit (List (ImageObj Val))) :
    APIState Val × Except APIErr (List (ImageObj Val)) :=
  let stale := match s.lastAllImagesCache with
    | none => true
    | some t => decide (s.clock > t + durationOf .images)
  if stale then
    match upstream with
    | .error _ => ({ s with clock := s.clock + 1 }, .error .upstreamErr)
    | .ok imgs =>
      let cacheTime := s.clock + 1
      let s1 := purgeForced { s with clock := s.clock + 2 } .images
      let filled := imgs.foldl
        (fun m img => dictSet m (some img.name) (img, cacheTime))
        s1.cachedImages
      match filled.head? with
      | none => ({ s1 with cachedImages := filled }, .error .stopIteration)
      | some firstEntry =>
        let withAlias := dictSet filled none firstEntry.2
        ({ s1 with
            cachedImages := withAlias,
            lastAllImagesCache := some cacheTime,
            cacheSaved :=
              dictSet (dictSet s1.cacheSaved .images false) .cacheMetadata
                false },
          .ok (imagesValues withAlias))
  else
    ({ s with clock := s.clock + 1 }, .ok (imagesValues s.cachedImages))

/-- The fetch branch of `__get_image_description` (lines 1426-1461).  The
description request and the `__get_single_image` title subcall are
abstracted into the supplied payload; the subcall only reads/refreshes the
`IMAGES` cache, which in the bulk-gather flow was just filled by
`__get_all_images`. -/
def imageDescriptionFetch {Val : Type} (s : APIState Val) (name : String)
    (desc : Val) : APIState Val × Except APIErr Val :=
  ({ s with
      cachedImageDescriptions :=
        dictSet s.cachedImageDescriptions name (desc, s.clock),
      clock := s.clock + 1,
      cacheSaved := dictSet s.cacheSaved .imageDescriptions false }, .ok desc)

/-- `FractalthornsAPI.__get_image_description` (lines 1410-1471). -/
def get_image_description {Val : Type} (s : APIState Val) (name : String)
    (desc : Val) : APIState Val × Except APIErr Val :=
  match dictGet s.cachedImageDescriptions name with
  | none => imageDescriptionFetch s name desc
  | some (v, t) =>
    if s.clock > t + durationOf .imageDescriptions then
      imageDescriptionFetch s name desc
    else ({ s with clock := s.clock + 1 }, .ok v)

/-- Whether an exception is an `fte.CachePurgeError` (the class caught by
the `try`/`except` around the non-forced purge in the gather functions). -/
def APIErr.isCachePurgeError : APIErr → Bool
  | .tooSoon _ => true
  | .invalidCache => true
  | _ => false

/-- The per-member task body of the record-contents gather (lines
2305-2316): run one `__get_record_text` task and record its result in the
comprehension dict. -/
def recordMemberStep {Val : Type} (textFor : String → Val)
    (acc : APIState Val × List (String × Val)) (r : RecordObj Val) :
    APIState Val × List (String × Val) :=
  match get_record_text acc.1 (some r.name) (textFor r.name) with
  | (st, .ok v) => (st, dictSet acc.2 r.name v)
  | (st, .error _) => (st, acc.2)

/-- The gather branch of `__get_full_record_contents` (lines 2296-2328),
entered after the cooldown handling: force-purge `CHAPTERS`, `RECORDS` and
`RECORD_CONTENTS`, refresh the episodic, fetch every solved record's text
(the `asyncio.TaskGroup`, modelled task by task), then commit the
collection with a fresh timestamp and mark it dirty. -/
def recordsGatherBody {Val : Type}
    (chaptersUpstream : Except Unit (List (ChapterObj Val)))
    (textFor : String → Val) (s0 : APIState Val) :
    APIState Val × Except APIErr (List (String × Val)) :=
  match get_full_episodic
      (purgeForced (purgeForced (purgeForced s0 .chapters) .records)
        .recordContents) chaptersUpstream with
  | (s4, .error e) => (s4, .error e)
  | (s4, .ok chaptersList) =>
    let solved := chaptersList.foldl
      (fun acc ch => acc ++ ch.records.filter (·.solved)) []
    let folded := solved.foldl (recordMemberStep textFor) (s4, [])
    ({ folded.1 with
        cachedFullRecordContents := some (folded.2, folded.1.clock),
        clock := folded.1.clock + 1,
        cacheSaved := dictSet folded.1.cacheSaved .fullRecordContents false },
      .ok folded.2)

/-- `FractalthornsAPI.__get_full_record_contents` (lines 2252-2337).
`gatherArg` is the `gather: bool | None` keyword.  The member record-text
fetches run in an `asyncio.TaskGroup`; each task body is modelled in
sequence (each goes through the `__get_record_text` cache logic), and the
result dict is built from the task results. -/
def get_full_record_contents {Val : Type} (s : APIState Val)
    (gatherArg : Option Bool)
    (chaptersUpstream : Except Unit (List (ChapterObj Val)))
    (textFor : String → Val) :
    APIState Val × Except APIErr (List (String × Val)) :=
  let stale := match s.cachedFullRecordContents with
    | none => true
    | some (_, t) => decide (s.clock > t + durationOf .fullRecordContents)
  if (gatherArg == some true) || stale then
    if gatherArg == some false then (s, .error .itemsUngathered)
    else
      match purge_cache s .fullRecordContents false with
      | (sp, .ok _) => recordsGatherBody chaptersUpstream textFor sp
      | (sp, .error e) =>
        if e.isCachePurgeError && sp.cachedFullRecordContents.isNone then
          recordsGatherBody chaptersUpstream textFor sp
        else (sp, .error e)
  else
    match s.cachedFullRecordContents with
    | none => ({ s with clock := s.clock + 1 }, .error .typeError)
    | some (m, _) => ({ s with clock := s.clock + 1 }, .ok m)

/-- The per-member task body of the image-descriptions gather (lines
2388-2399). -/
def imageMemberStep {Val : Type} (descFor : String → Val)
    (acc : APIState Val × List (String × Val)) (img : ImageObj Val) :
    APIState Val × List (String × Val) :=
  match get_image_description acc.1 img.name (descFor img.name) with
  | (st, .ok v) => (st, dictSet acc.2 img.name v)
  | (st, .error _) => (st, acc.2)

/-- The gather branch of `__get_full_image_descriptions`
(lines 2383-2411). -/
def imagesGatherBody {Val : Type}
    (imagesUpstream : Except Unit (List (ImageObj Val)))
    (descFor : String → Val) (s0 : APIState Val) :
    APIState Val × Except APIErr (List (String × Val)) :=
  match get_all_images (purgeForced (purgeForced s0 .imageDescriptions)
      .images) imagesUpstream with
  | (s3, .error e) => (s3, .error e)
  | (s3, .ok imgs) =>
    let folded := imgs.foldl (imageMemberStep descFor) (s3, [])
    ({ folded.1 with
        cachedFullImageDescriptions := some (folded.2, folded.1.clock),
        clock := folded.1.clock + 1,
        cacheSaved :=
          dictSet folded.1.cacheSaved .fullImageDescriptions false },
      .ok folded.2)

/-- `FractalthornsAPI.__get_full_image_descriptions` (lines 2339-2420),
structured exactly like `__get_full_record_contents` but over images and
image descriptions. -/
def get_full_image_descriptions {Val : Type} (s : APIState Val)
    (gatherArg : Option Bool)
    (imagesUpstream : Except Unit (List (ImageObj Val)))
    (descFor : String → Val) :
    APIState Val × Except APIErr (List (String × Val)) :=
  let stale := match s.cachedFullImageDescriptions with
    | none => true
    | some (_, t) => decide (s.clock > t + durationOf .fullImageDescriptions)
  if (gatherArg == some true) || stale then
    if gatherArg == some false then (s, .error .itemsUngathered)
    else
      match purge_cache s .fullImageDescriptions false with
      | (sp, .ok _) => imagesGatherBody imagesUpstream descFor sp
      | (sp, .error e) =>
        if e.isCachePurgeError && sp.cachedFullImageDescriptions.isNone then
          imagesGatherBody imagesUpstream descFor sp
        else (sp, .error e)
  else
    match s.cachedFullImageDescriptions with
    | none => ({ s with clock := s.clock + 1 }, .error .typeError)
    | some (m, _) => ({ s with clock := s.clock + 1 }, .ok m)

/-! ## Concrete states for witnesses -/

/-- List of all cache categories (used to build the initial
`__cache_saved = dict.fromkeys(self.CacheTypes, True)`). -/
def allCacheTypes : List CacheType :=
  [.newsItems, .images, .imageContents, .imageDescriptions, .sketches,
   .sketchContents, .chapters, .records, .recordContents, .searchResults,
   .currentSplash, .splashPages, .fullRecordContents, .fullImageDescriptions,
   .cacheMetadata]

/-- The freshly initialized state (`__init__` with no persisted caches):
everything empty, all `cache_saved` flags `True`. -/
def initState (Val : Type) : APIState Val where
  clock := 0
  cachedNewsItems := none
  cachedImages := []
  cachedImageContents := []
  cachedImageDescriptions := []
  cachedSketches := []
  cachedSketchContents := []
  cachedChapters := none
  cachedRecords := []
  cachedRecordContents := []
  cachedSearchResults := []
  cachedCurrentSplash := none
  cachedSplashPages := []
  cachedFullRecordContents := none
  cachedFullImageDescriptions := none
  lastAllImagesCache := none
  lastAllSketchesCache := none
  lastFullEpisodicCache := none
  lastCachePurge := []
  cacheSaved := allCacheTypes.map fun c => (c, true)

/-! ## Helper lemmas about `purge_cache` -/

/-- Claim C3 (`purge_cache`, lines 338-395): the call fails with a
rate-limit `CachePurgeError` carrying `allowed_time = lastPurgeAt + cooldown`
iff it was not forced, a previous purge of the category is recorded, and the
current time is before `lastPurgeAt + cooldown`; on that failure nothing but
the clock changes (no entries cleared, `lastPurgeAt` untouched); on success
`__last_cache_purge[cache]` is set to the current time. -/
theorem purge_cooldown_spec {Val : Type} (s : APIState Val) (c : CacheType)
    (force : Bool) (h : c ≠ CacheType.cacheMetadata) :
    ((∃ a, (purge_cache s c force).2 = .error (.tooSoon a)) ↔
      (force = false ∧ ∃ t, dictGet s.lastCachePurge c = some t ∧
        s.clock < t + cooldownOf c)) ∧
    (∀ a, (purge_cache s c force).2 = .error (.tooSoon a) →
      (∃ t, dictGet s.lastCachePurge c = some t ∧ a = t + cooldownOf c) ∧
      (purge_cache s c force).1 = { s with clock := s.clock + 1 }) ∧
    (∀ s2, purge_cache s c force = (s2, .ok ()) →
      dictGet s2.lastCachePurge c = some (s2.clock - 1) ∧
      s.clock ≤ s2.clock - 1) := by
  have hcd := cachePurgeCooldown_isSome h
  cases force with
  | true =>
    simp only [purge_cache, if_pos rfl, if_neg h]
    refine ⟨by simp, by simp, ?_⟩
    intro s2 hs2
    rw [Prod.mk.injEq] at hs2
    cases hs2.1
    simp [dictGet_dictSet_self, clearState_clock, clearState_lastCachePurge]
  | false =>
    cases hd : dictGet s.lastCachePurge c with
    | none =>
      simp only [purge_cache, hd, Bool.false_eq_true, if_false, if_neg h]
      refine ⟨by simp [hd], by simp, ?_⟩
      intro s2 hs2
      rw [Prod.mk.injEq] at hs2
      cases hs2.1
      simp [dictGet_dictSet_self, clearState_clock, clearState_lastCachePurge]
    | some t =>
      by_cases hlt : s.clock < t + cooldownOf c
      · simp only [purge_cache, hd, hcd, Bool.false_eq_true, if_false,
          if_pos hlt]
        refine ⟨by simp [hd, hlt], ?_, by simp⟩
        intro a ha
        simp only [Except.error.injEq, APIErr.tooSoon.injEq] at ha
        exact ⟨⟨t, rfl, ha.symm⟩, by trivial⟩
      · simp only [purge_cache, hd, hcd, Bool.false_eq_true, if_false,
          if_neg hlt, if_neg h]
        refine ⟨by simp [hd, hlt], by simp, ?_⟩
        intro s2 hs2
        rw [Prod.mk.injEq] at hs2
        cases hs2.1
        constructor
        · simp [dictGet_dictSet_self]
        · simp [clearState_clock]

/-- A state 200 seconds into the epoch whose news cache was purged at
second 100 (the news purge cooldown is 20 minutes). -/
def purgeDemoState : APIState Nat :=
  { initState Nat with clock := 200, lastCachePurge := [(.newsItems, 100)] }

theorem purge_cooldown_spec_witness :
    CacheType.newsItems ≠ CacheType.cacheMetadata ∧
    (∃ a, (purge_cache purgeDemoState CacheType.newsItems false).2 =
      .error (.tooSoon a)) := by
  refine ⟨by decide, ?_⟩
  exact (purge_cooldown_spec purgeDemoState .newsItems false
    (by decide)).1.mpr ⟨rfl, 100, by decide, by decide⟩

/-- A state holding one cached sketch and one cached image, plus a sketch
bulk timestamp. -/
def sketchDemoState : APIState Nat :=
  { initState Nat with
      clock := 50
      cachedSketches := [(some "tree", (5, 10))]
      cachedImages := [(some "img1", (⟨"img1", 7⟩, 10))]
      lastAllSketchesCache := some 10 }

/-- Claim C4 at its failing input (the `SKETCHES` arm of `purge_cache`,
lines 363-365): a successful purge of the sketches category leaves the
sketches dict untouched and instead empties the images dict — the arm
assigns `self.__cached_images = \x7b\x7d` rather than
`self.__cached_sketches = \x7b\x7d`. -/
theorem purge_sketches_clears_images :
    (purge_cache sketchDemoState .sketches true).2 = .ok () ∧
    (purge_cache sketchDemoState .sketches true).1.cachedSketches =
      [(some "tree", (5, 10))] ∧
    (purge_cache sketchDemoState .sketches true).1.cachedImages = [] ∧
    (purge_cache sketchDemoState .sketches true).1.lastAllSketchesCache =
      none := by
  decide

/-! ## Claims C2 and C10: `get_cached_items` -/

/-- A state holding one image entry fetched at time 0, queried one second
after its 4-hour TTL has elapsed. -/
def imagesStaleState : APIState Nat :=
  { initState Nat with
      clock := hoursSec 4 + 1
      cachedImages := [(some "img1", (⟨"img1", 7⟩, 0))] }

/-- Claim C2 at its failing input (the keyed branch of `get_cached_items`,
lines 569-573): with `ignore_stale=False`, a single stale entry is *not*
silently omitted — the loop pops it from the dict it is iterating and the
dict iterator then raises
`RuntimeError("dictionary changed size during iteration")`.  With
`ignore_stale=True` (and likewise for fresh entries) the dict is returned
with expiry times appended, as the claim describes. -/
theorem get_cached_items_stale_raises :
    get_cached_items_images imagesStaleState false = .error .dictChanged ∧
    get_cached_items_images imagesStaleState true =
      .ok [(some "img1", (⟨"img1", 7⟩, 0, hoursSec 4))] := ⟨rfl, rfl⟩

theorem purgeCooldownItems_ok {l : List (CacheType × Nat)}
    (h : ∀ p ∈ l, (cachePurgeCooldown p.1).isSome) :
    ∃ out, purgeCooldownItems l = .ok out := by
  induction l with
  | nil => exact ⟨[], rfl⟩
  | cons p rest ih =>
    obtain ⟨c, t⟩ := p
    obtain ⟨cd, hcd⟩ :=
      Option.isSome_iff_exists.mp (h (c, t) (List.mem_cons_self _ _))
    obtain ⟨out, hout⟩ := ih fun q hq => h q (List.mem_cons_of_mem _ hq)
    exact ⟨(c, (t, t + cd)) :: out, by simp [purgeCooldownItems, hcd, hout]⟩

/-- Claim C10 (the `CACHE_METADATA` arm of `get_cached_items`,
lines 509-534): in any state whose purge records all have cooldown entries
(an invariant of every reachable state), the call raises `TypeError`
(`None + timedelta`) iff at least one of the three bulk-fetch timestamps
is `None`, and returns a metadata dictionary iff all three are set. -/
theorem cache_metadata_type_error {Val : Type} (s : APIState Val)
    (hp : ∀ p ∈ s.lastCachePurge, (cachePurgeCooldown p.1).isSome) :
    (get_cached_items_metadata s = .error .typeError ↔
      (s.lastAllImagesCache = none ∨ s.lastAllSketchesCache = none ∨
        s.lastFullEpisodicCache = none)) ∧
    ((∃ m, get_cached_items_metadata s = .ok m) ↔
      (s.lastAllImagesCache ≠ none ∧ s.lastAllSketchesCache ≠ none ∧
        s.lastFullEpisodicCache ≠ none)) := by
  cases hi : s.lastAllImagesCache with
  | none => simp [get_cached_items_metadata, hi]
  | some ti =>
    cases hs : s.lastAllSketchesCache with
    | none => simp [get_cached_items_metadata, hi, hs]
    | some ts =>
      cases he : s.lastFullEpisodicCache with
      | none => simp [get_cached_items_metadata, hi, hs, he]
      | some te =>
        obtain ⟨out, hout⟩ := purgeCooldownItems_ok hp
        simp [get_cached_items_metadata, hi, hs, he, hout]

theorem cache_metadata_type_error_witness :
    (∀ p ∈ (initState Nat).lastCachePurge, (cachePurgeCooldown p.1).isSome) ∧
    get_cached_items_metadata (initState Nat) = .error .typeError := by
  refine ⟨by decide, ?_⟩
  exact (cache_metadata_type_error (initState Nat) (by decide)).1.mpr
    (Or.inl rfl)

/-! ## Claim C7: upstream failures cache nothing -/

/-- The staleness test of `__get_all_news` (lines 1197-1202). -/
def newsIsStale {Val : Type} (s : APIState Val) : Bool :=
  match s.cachedNewsItems with
  | none => true
  | some (_, t) => decide (s.clock > t + durationOf .newsItems)

/-- The staleness test of `__get_single_image` (lines 1251-1256). -/
def imageIsStale {Val : Type} (s : APIState Val) (key : Option String) : Bool :=
  match dictGet s.cachedImages key with
  | none => true
  | some (_, t) => decide (s.clock > t + durationOf .images)

/-- Claim C7 (`__get_all_news` lines 1197-1239, `__get_single_image`
lines 1264-1297): when no fresh entry exists and the upstream request
fails, the failure propagates and nothing is cached — the resulting state
is the original one with only the clock advanced: cache entries,
timestamps and the dirty flags are untouched, so a later call retries. -/
theorem fetch_failure_caches_nothing {Val : Type} (s : APIState Val)
    (key : Option String) (h1 : newsIsStale s = true)
    (h2 : imageIsStale s key = true) :
    get_all_news s (.error ()) =
      ({ s with clock := s.clock + 1 }, .error .upstreamErr) ∧
    get_single_image s key (.error ()) =
      ({ s with clock := s.clock + 1 }, .error .upstreamErr) := by
  constructor
  · cases hn : s.cachedNewsItems with
    | none => simp [get_all_news, hn, newsFetch]
    | some p =>
      obtain ⟨items, t⟩ := p
      simp only [newsIsStale, hn, decide_eq_true_eq] at h1
      simp [get_all_news, hn, newsFetch, h1]
  · cases hm : dictGet s.cachedImages key with
    | none => simp [get_single_image, hm, imageFetch]
    | some p =>
      obtain ⟨img, t⟩ := p
      simp only [imageIsStale, hm, decide_eq_true_eq] at h2
      simp [get_single_image, hm, imageFetch, h2]

theorem fetch_failure_caches_nothing_witness :
    newsIsStale (initState Nat) = true ∧
    imageIsStale (initState Nat) none = true ∧
    get_all_news (initState Nat) (.error ()) =
      ({ initState Nat with clock := 1 }, .error .upstreamErr) := by
  refine ⟨rfl, rfl, ?_⟩
  exact (fetch_failure_caches_nothing (initState Nat) none rfl rfl).1

/-! ## Claim C9: what a store replaces -/

/-- A state with splash page 1 cached and fresh (5-minute TTL). -/
def splashDemoState : APIState Nat :=
  { initState Nat with
      clock := 10
      cachedSplashPages := [(1, (11, 9))] }

/-- Claim C9 at its failing input (`__get_paged_splashes`, line 2200):
fetching page 2 while page 1 is cached *replaces the whole dict* with
`\x7bpage: (splash_page, now)\x7d`, so page 1's entry is dropped — refuting the
claim that entries under every other key are unchanged. -/
theorem paged_splash_fetch_drops_other_pages :
    (get_paged_splashes splashDemoState 2 (.ok 22)).1.cachedSplashPages =
      [(2, (22, 11))] ∧
    dictGet (get_paged_splashes splashDemoState 2 (.ok 22)).1.cachedSplashPages
      1 = none := by
  decide

/-- Claim C9 (amended, `__get_single_image` lines 1279-1297): for the
images category a newly fetched value replaces only the entry under the
requested key — plus, when the default key `None` was requested, the alias
entry under the image's own name — and marks the category dirty; every
other key's entry is unchanged.  (The splash-pages category instead
replaces its whole dict, keeping only the fetched page; see the
counterexample.) -/
theorem single_image_store_frame {Val : Type} (s : APIState Val)
    (key q : Option String) (img : ImageObj Val)
    (hq1 : q ≠ key) (hq2 : key = none → q ≠ some img.name) :
    dictGet (imageFetch s key (.ok img)).1.cachedImages q =
      dictGet s.cachedImages q ∧
    dictGet (imageFetch s key (.ok img)).1.cachedImages key =
      some (img, s.clock + 1) ∧
    dictGet (imageFetch s key (.ok img)).1.cacheSaved .images = some false := by
  refine ⟨?_, ?_, ?_⟩
  · cases hk : key with
    | none =>
      subst hk
      have hm : (imageFetch s none (.ok img)).1.cachedImages =
          dictSet (dictSet s.cachedImages none (img, s.clock + 1))
            (some img.name) (img, s.clock + 2) := by simp [imageFetch]
      rw [hm, dictGet_dictSet_ne _ _ _ _ (Ne.symm (hq2 rfl)),
        dictGet_dictSet_ne _ _ _ _ (Ne.symm hq1)]
    | some n =>
      subst hk
      have hm : (imageFetch s (some n) (.ok img)).1.cachedImages =
          dictSet s.cachedImages (some n) (img, s.clock + 1) := by
        simp [imageFetch]
      rw [hm, dictGet_dictSet_ne _ _ _ _ (Ne.symm hq1)]
  · cases hk : key with
    | none =>
      subst hk
      have hm : (imageFetch s none (.ok img)).1.cachedImages =
          dictSet (dictSet s.cachedImages none (img, s.clock + 1))
            (some img.name) (img, s.clock + 2) := by simp [imageFetch]
      rw [hm, dictGet_dictSet_ne _ _ _ _ (by simp), dictGet_dictSet_self]
    | some n =>
      subst hk
      have hm : (imageFetch s (some n) (.ok img)).1.cachedImages =
          dictSet s.cachedImages (some n) (img, s.clock + 1) := by
        simp [imageFetch]
      rw [hm, dictGet_dictSet_self]
  · have hm : (imageFetch s key (.ok img)).1.cacheSaved =
        dictSet s.cacheSaved .images false := by simp [imageFetch]
    rw [hm, dictGet_dictSet_self]

theorem single_image_store_frame_witness :
    ((some "other" : Option String) ≠ some "img1") ∧
    dictGet (imageFetch (initState Nat) (some "img1")
        (.ok ⟨"img1", 7⟩)).1.cachedImages (some "other") =
      dictGet (initState Nat).cachedImages (some "other") ∧
    dictGet (imageFetch (initState Nat) (some "img1")
        (.ok ⟨"img1", 7⟩)).1.cachedImages (some "img1") = some (⟨"img1", 7⟩, 1) := by
  have h := single_image_store_frame (initState Nat) (some "img1")
    (some "other") ⟨"img1", 7⟩ (by decide) (by intro hc; cases hc)
  exact ⟨by decide, h.1, h.2.1⟩

/-! ## Claim C6: read-only bulk reads -/

/-- The `cache_stale` test of `__get_full_record_contents`
(lines 2264-2269). -/
def fullRecordContentsStale {Val : Type} (s : APIState Val) : Bool :=
  match s.cachedFullRecordContents with
  | none => true
  | some (_, t) => decide (s.clock > t + durationOf .fullRecordContents)

/-- The `cache_stale` test of `__get_full_image_descriptions`
(lines 2351-2356). -/
def fullImageDescriptionsStale {Val : Type} (s : APIState Val) : Bool :=
  match s.cachedFullImageDescriptions with
  | none => true
  | some (_, t) => decide (s.clock > t + durationOf .fullImageDescriptions)

/-- A state whose bulk collections were gathered at time 0 and have gone
stale (queried one second past the 24-hour TTL). -/
def gatheredStaleState : APIState Nat :=
  { initState Nat with
      clock := hoursSec 24 + 1
      cachedFullRecordContents := some ([("rec1", 5)], 0)
      cachedFullImageDescriptions := some ([("img1", 6)], 0) }

/-- Claim C6 at a refuting input (lines 2270-2288 / 2357-2375): a read-only
request (`gather=False`) raises `ItemsUngatheredError` on a state whose
collection *was* gathered before but has merely gone stale — not only when
nothing has ever been gathered. -/
theorem read_only_raises_despite_gathered :
    (get_full_record_contents gatheredStaleState (some false) (.error ())
      (fun _ => 0)).2 = .error .itemsUngathered ∧
    (get_full_image_descriptions gatheredStaleState (some false) (.error ())
      (fun _ => 0)).2 = .error .itemsUngathered := ⟨rfl, rfl⟩

/-- Claim C6 (amended): a read-only request (`gather=False`) raises
`ItemsUngatheredError` iff the cached collection is absent *or stale*;
when a non-stale gathered collection exists it is returned as-is, with no
upstream call (only the clock advances). -/
theorem read_only_gather_spec {Val : Type} (s : APIState Val)
    (chU : Except Unit (List (ChapterObj Val))) (tf : String → Val)
    (imU : Except Unit (List (ImageObj Val))) (df : String → Val) :
    ((get_full_record_contents s (some false) chU tf).2 =
        .error .itemsUngathered ↔ fullRecordContentsStale s = true) ∧
    (∀ m t, s.cachedFullRecordContents = some (m, t) →
      fullRecordContentsStale s = false →
      get_full_record_contents s (some false) chU tf =
        ({ s with clock := s.clock + 1 }, .ok m)) ∧
    ((get_full_image_descriptions s (some false) imU df).2 =
        .error .itemsUngathered ↔ fullImageDescriptionsStale s = true) ∧
    (∀ m t, s.cachedFullImageDescriptions = some (m, t) →
      fullImageDescriptionsStale s = false →
      get_full_image_descriptions s (some false) imU df =
        ({ s with clock := s.clock + 1 }, .ok m)) := by
  refine ⟨?_, ?_, ?_, ?_⟩
  · cases hc : s.cachedFullRecordContents with
    | none => simp [get_full_record_contents, fullRecordContentsStale, hc]
    | some p =>
      obtain ⟨m, t⟩ := p
      by_cases hst : s.clock > t + durationOf .fullRecordContents
      · simp [get_full_record_contents, fullRecordContentsStale, hc, hst]
      · simp [get_full_record_contents, fullRecordContentsStale, hc, hst]
  · intro m t hc hst
    simp only [fullRecordContentsStale, hc, decide_eq_false_iff_not] at hst
    simp [get_full_record_contents, hc, hst]
  · cases hc : s.cachedFullImageDescriptions with
    | none => simp [get_full_image_descriptions, fullImageDescriptionsStale, hc]
    | some p =>
      obtain ⟨m, t⟩ := p
      by_cases hst : s.clock > t + durationOf .fullImageDescriptions
      · simp [get_full_image_descriptions, fullImageDescriptionsStale, hc, hst]
      · simp [get_full_image_descriptions, fullImageDescriptionsStale, hc, hst]
  · intro m t hc hst
    simp only [fullImageDescriptionsStale, hc, decide_eq_false_iff_not] at hst
    simp [get_full_image_descriptions, hc, hst]

/-- A state whose bulk collections were gathered at time 0 and are still
fresh at time 5. -/
def freshGatheredState : APIState Nat :=
  { initState Nat with
      clock := 5
      cachedFullRecordContents := some ([("a", 1)], 0)
      cachedFullImageDescriptions := some ([("b", 2)], 0) }

theorem read_only_gather_spec_witness :
    fullRecordContentsStale freshGatheredState = false ∧
    get_full_record_contents freshGatheredState (some false) (.error ())
        (fun _ => 0) =
      ({ freshGatheredState with clock := 6 }, .ok [("a", 1)]) := by
  refine ⟨rfl, ?_⟩
  exact (read_only_gather_spec freshGatheredState (.error ()) (fun _ => 0)
    (.error ()) (fun _ => 0)).2.1 [("a", 1)] 0 rfl rfl

/-! ## Claim C8: persistence of the search-results cache

`save_cache(SEARCH_RESULTS)` serializes the composite key `(term, type)` as
the string `f"\x7bi[0]\x7d|\x7bi[1]\x7d"` (line 2797); `load_cache(SEARCH_RESULTS)`
splits at the *last* `'|'` via `i.rindex("|")` (line 2569).  Values are
passed through the dataclass codec (`asdict` / `SearchResult.from_obj`),
modelled as an opaque pair of functions; timestamps round-trip through
`timestamp()` / `fromtimestamp`, modelled as the identity on integral
seconds. -/

/-- Index of the last occurrence of `c` (Python `str.rindex`), `none` when
absent (where Python raises `ValueError`). -/
def rindexOf (c : Char) : List Char → Option Nat
  | [] => none
  | x :: xs =>
    match rindexOf c xs with
    | some i => some (i + 1)
    | none => if x = c then some 0 else none

/-- `(i[: i.rindex("|")], i[i.rindex("|") + 1 :])` — the key decoder of the
`SEARCH_RESULTS` arm of `load_cache`. -/
def decodeSearchKey (l : List Char) : Option (List Char × List Char) :=
  match rindexOf '|' l with
  | none => none
  | some i => some (l.take i, l.drop (i + 1))

/-- The dict built by the `SEARCH_RESULTS` arm of `save_cache`
(lines 2794-2802): key `term|type`, value `([asdict(k) for k in results],
timestamp)`. -/
def saveSearchResults {V J : Type} (encV : V → J)
    (m : List ((List Char × List Char) × (List V × Nat))) :
    List (List Char × (List J × Nat)) :=
  m.map fun p => (p.1.1 ++ '|' :: p.1.2, (p.2.1.map encV, p.2.2))

/-- The dict comprehension of the `SEARCH_RESULTS` arm of `load_cache`
(lines 2567-2584); a key without `'|'` makes `rindex` raise. -/
def loadSearchResults {V J : Type} (decV : J → V) :
    List (List Char × (List J × Nat)) →
    Except Unit (List ((List Char × List Char) × (List V × Nat)))
  | [] => .ok []
  | (k, vs, t) :: rest =>
    match decodeSearchKey k with
    | none => .error ()
    | some key =>
      match loadSearchResults decV rest with
      | .error e => .error e
      | .ok out => .ok ((key, (vs.map decV, t)) :: out)

/-- `save_cache(SEARCH_RESULTS)` at the state level: a no-op when the
category is not dirty (`if self.__cache_saved[cache]: return`), otherwise
the serialized dict replaces the file (after the `.bak` rotation) and the
dirty flag clears.  A missing `cache_saved` entry would be a Python
`KeyError`, but `__cache_saved` is initialized with `dict.fromkeys`
over all categories, so that branch is unreachable and left as a no-op. -/
def save_cache_search {Val J : Type} (encV : Val → J) (s : APIState Val)
    (disk : Option (List (List Char × (List J × Nat)))) :
    Option (List (List Char × (List J × Nat))) × APIState Val :=
  match dictGet s.cacheSaved .searchResults with
  | some true => (disk, s)
  | some false =>
    (some (saveSearchResults encV s.cachedSearchResults),
     { s with cacheSaved := dictSet s.cacheSaved .searchResults true })
  | none => (disk, s)

/-- `load_cache(SEARCH_RESULTS)` at the state level: a missing file returns
early (`if not Path(cache_path).exists(): return`), and any parse failure
is caught by the `except Exception` handler, leaving the state untouched. -/
def load_cache_search {Val J : Type} (decV : J → Val) (s : APIState Val)
    (disk : Option (List (List Char × (List J × Nat)))) : APIState Val :=
  match disk with
  | none => s
  | some file =>
    match loadSearchResults decV file with
    | .error _ => s
    | .ok m => { s with cachedSearchResults := m }

theorem rindexOf_eq_none {c : Char} {l : List Char} (h : c ∉ l) :
    rindexOf c l = none := by
  induction l with
  | nil => rfl
  | cons x xs ih =>
    simp only [List.mem_cons, not_or] at h
    simp only [rindexOf, ih h.2]
    exact if_neg fun hx => h.1 hx.symm

theorem rindexOf_encoded (term ty : List Char) (h : ('|' : Char) ∉ ty) :
    rindexOf '|' (term ++ '|' :: ty) = some term.length := by
  induction term with
  | nil => simp [rindexOf, rindexOf_eq_none h]
  | cons x xs ih => simp [rindexOf, ih]

theorem decodeSearchKey_encoded (term ty : List Char)
    (h : ('|' : Char) ∉ ty) :
    decodeSearchKey (term ++ '|' :: ty) = some (term, ty) := by
  simp only [decodeSearchKey, rindexOf_encoded term ty h, Option.some.injEq,
    Prod.mk.injEq]
  refine ⟨List.take_left term ('|' :: ty), ?_⟩
  rw [List.append_cons]
  have hlen : (term ++ ['|']).length = term.length + 1 := by simp
  rw [← hlen, List.drop_left]

theorem loadSearchResults_save {V J : Type} (encV : V → J) (decV : J → V)
    (m : List ((List Char × List Char) × (List V × Nat)))
    (hV : ∀ v, decV (encV v) = v)
    (hK : ∀ p ∈ m, ('|' : Char) ∉ p.1.2) :
    loadSearchResults decV (saveSearchResults encV m) = .ok m := by
  induction m with
  | nil => rfl
  | cons p rest ih =>
    obtain ⟨⟨term, ty⟩, vs, t⟩ := p
    have hk : ('|' : Char) ∉ ty := hK _ (List.mem_cons_self _ _)
    have ihh := ih fun q hq => hK q (List.mem_cons_of_mem _ hq)
    simp only [saveSearchResults, List.map_cons] at ihh ⊢
    simp only [loadSearchResults, decodeSearchKey_encoded term ty hk]
    rw [ihh]
    have hmap : ∀ ws : List V, List.map (decV ∘ encV) ws = ws := by
      intro ws
      induction ws with
      | nil => rfl
      | cons w ws2 ihw => simp [Function.comp, hV, ihw]
    simp [List.map_map, hmap]

/-- Claim C8: saving the (dirty) search-results cache and then loading it
into a fresh state reproduces the identical `(value, fetchedAt)` map — in
particular composite `(term, type)` keys survive, *including terms that
contain the `'|'` delimiter*, because `load_cache` splits at the last `'|'`
and the type field (one of `image` / `sketch` / `episodic-item` /
`episodic-line`) never contains `'|'`; and loading a category that was
never saved (no file on disk) leaves the state untouched and raises
nothing. -/
theorem search_results_round_trip {Val J : Type} (encV : Val → J)
    (decV : J → Val) (s sFresh : APIState Val)
    (hV : ∀ v, decV (encV v) = v)
    (hK : ∀ p ∈ s.cachedSearchResults, ('|' : Char) ∉ p.1.2)
    (hdirty : dictGet s.cacheSaved .searchResults = some false) :
    (load_cache_search decV sFresh
        (save_cache_search encV s none).1).cachedSearchResults =
      s.cachedSearchResults ∧
    load_cache_search decV sFresh none = sFresh := by
  constructor
  · simp only [save_cache_search, hdirty, load_cache_search,
      loadSearchResults_save encV decV s.cachedSearchResults hV hK]
  · rfl

/-- A dirty state holding one search result whose term contains the
delimiter (`"a|b"`, searched as an image). -/
def searchDemoState : APIState Nat :=
  { initState Nat with
      cachedSearchResults := [(("a|b".toList, "image".toList), ([3, 4], 7))]
      cacheSaved := dictSet (initState Nat).cacheSaved .searchResults false }

theorem search_results_round_trip_witness :
    (∀ p ∈ searchDemoState.cachedSearchResults, ('|' : Char) ∉ p.1.2) ∧
    dictGet searchDemoState.cacheSaved .searchResults = some false ∧
    (load_cache_search (fun j => j) (initState Nat)
        (save_cache_search (fun v => v) searchDemoState
          none).1).cachedSearchResults =
      [(("a|b".toList, "image".toList), ([3, 4], 7))] := by
  refine ⟨by decide, by decide, ?_⟩
  exact (search_results_round_trip (fun v => v) (fun j => j) searchDemoState
    (initState Nat) (fun _ => rfl) (by decide) (by decide)).1

/-! ## Claim C1: concurrent fetches for one `(category, key)`

`__get_all_news` (lines 1187-1239) contains no in-flight registration of
any kind: between its staleness check and its cache store it awaits the
upstream request (`await self._make_request` / `await resp.text()`), a
suspension point at which other tasks run.  Each concurrent caller is
modelled as a task with one suspension point there; a schedule is the list
of task indices picked by the event loop. -/

/-- Where a caller of `__get_all_news` stands: before its staleness check,
suspended awaiting its own upstream request, or returned with a value. -/
inductive TaskPhase (Val : Type) where
  | ready
  | inflight
  | done (ret : List Val)
deriving DecidableEq, Repr

/-- Whether a task still runs (has not returned). -/
def TaskPhase.isPending {Val : Type} : TaskPhase Val → Bool
  | .done _ => false
  | _ => true

/-- Shared state: the news cache cell, the clock, how many times the
upstream endpoint was hit, and each task's phase. -/
structure NewsConcState (Val : Type) where
  cache : Option (List Val × Nat)
  clock : Nat
  upstreamCalls : Nat
  tasks : List (TaskPhase Val)
deriving DecidableEq, Repr

/-- Run task `i` from its current phase to its next suspension point (or to
completion), following `__get_all_news`: a ready task checks the cache —
fresh means return the cached items at once, stale means suspend into the
upstream await; a suspended task's response arrives, is counted as an
upstream invocation, stored in the cache, and returned (store and return
are one synchronous segment, lines 1219-1239).  `upstream` maps the call
number to the parsed response. -/
def newsStep {Val : Type} (upstream : Nat → List Val)
    (s : NewsConcState Val) (i : Nat) : NewsConcState Val :=
  match s.tasks[i]? with
  | none => s
  | some .ready =>
    match s.cache with
    | some (items, t) =>
      if s.clock > t + durationOf .newsItems then
        { s with clock := s.clock + 1, tasks := s.tasks.set i .inflight }
      else
        { s with clock := s.clock + 1, tasks := s.tasks.set i (.done items) }
    | none => { s with clock := s.clock + 1, tasks := s.tasks.set i .inflight }
  | some .inflight =>
    let items := upstream s.upstreamCalls
    { s with
        cache := some (items, s.clock),
        clock := s.clock + 1,
        upstreamCalls := s.upstreamCalls + 1,
        tasks := s.tasks.set i (.done items) }
  | some (.done _) => s

/-- Run a whole schedule. -/
def newsRun {Val : Type} (upstream : Nat → List Val) (sched : List Nat)
    (s : NewsConcState Val) : NewsConcState Val :=
  sched.foldl (newsStep upstream) s

/-- `n` concurrent callers arriving while nothing is cached. -/
def newsInit (Val : Type) (n : Nat) : NewsConcState Val :=
  { cache := none, clock := 0, upstreamCalls := 0,
    tasks := List.replicate n .ready }

/-- Claim C1 at a refuting input: two concurrent `__get_all_news` callers
on an empty cache, interleaved as check-A, check-B, respond-A, respond-B
(a legal event-loop schedule, since the check and the store are separated
by the upstream await).  The upstream endpoint is invoked twice — not once
— and the two callers return different values when the upstream responses
differ. -/
theorem news_fetch_not_single_flight :
    (newsRun (fun i => [i]) [0, 1, 0, 1] (newsInit Nat 2)).upstreamCalls =
      2 ∧
    (newsRun (fun i => [i]) [0, 1, 0, 1] (newsInit Nat 2)).tasks =
      [.done [0], .done [1]] := by decide

theorem countP_set {α : Type} (p : α → Bool) (l : List α) (i : Nat)
    (a b : α) (h : l[i]? = some a) :
    (l.set i b).countP p + (if p a then 1 else 0) =
      l.countP p + (if p b then 1 else 0) := by
  induction l generalizing i with
  | nil => simp at h
  | cons x xs ih =>
    cases i with
    | zero =>
      simp only [List.getElem?_cons_zero, Option.some.injEq] at h
      subst h
      simp only [List.set_cons_zero, List.countP_cons]
      omega
    | succ j =>
      simp only [List.getElem?_cons_succ] at h
      simp only [List.set_cons_succ, List.countP_cons]
      have := ih j h
      omega

/-- How many tasks have not yet returned. -/
def pendingCount {Val : Type} (l : List (TaskPhase Val)) : Nat :=
  l.countP TaskPhase.isPending

theorem newsStep_measure {Val : Type} (upstream : Nat → List Val)
    (s : NewsConcState Val) (i : Nat) :
    (newsStep upstream s i).upstreamCalls +
        pendingCount (newsStep upstream s i).tasks ≤
      s.upstreamCalls + pendingCount s.tasks := by
  cases hi : s.tasks[i]? with
  | none => simp [newsStep, hi]
  | some ph =>
    cases ph with
    | ready =>
      cases hc : s.cache with
      | none =>
        simp only [newsStep, hi, hc]
        have := countP_set TaskPhase.isPending s.tasks i .ready .inflight hi
        simp only [pendingCount]
        simp [TaskPhase.isPending] at this ⊢
        omega
      | some p =>
        obtain ⟨items, t⟩ := p
        by_cases hst : s.clock > t + durationOf .newsItems
        · simp only [newsStep, hi, hc, if_pos hst]
          have := countP_set TaskPhase.isPending s.tasks i .ready .inflight hi
          simp only [pendingCount]
          simp [TaskPhase.isPending] at this ⊢
          omega
        · simp only [newsStep, hi, hc, if_neg hst]
          have := countP_set TaskPhase.isPending s.tasks i .ready (.done items)
            hi
          simp only [pendingCount]
          simp [TaskPhase.isPending] at this ⊢
          omega
    | inflight =>
      simp only [newsStep, hi]
      have := countP_set TaskPhase.isPending s.tasks i .inflight
        (.done (upstream s.upstreamCalls)) hi
      simp only [pendingCount]
      simp [TaskPhase.isPending] at this ⊢
      omega
    | done ret => simp [newsStep, hi]

theorem newsRun_measure {Val : Type} (upstream : Nat → List Val)
    (sched : List Nat) (s : NewsConcState Val) :
    (newsRun upstream sched s).upstreamCalls +
        pendingCount (newsRun upstream sched s).tasks ≤
      s.upstreamCalls + pendingCount s.tasks := by
  induction sched generalizing s with
  | nil => exact le_refl _
  | cons i rest ih =>
    calc (newsRun upstream rest (newsStep upstream s i)).upstreamCalls +
        pendingCount (newsRun upstream rest (newsStep upstream s i)).tasks ≤
        (newsStep upstream s i).upstreamCalls +
          pendingCount (newsStep upstream s i).tasks := ih _
      _ ≤ s.upstreamCalls + pendingCount s.tasks := newsStep_measure ..

/-- Claim C1 (amended): `__get_all_news` performs no coalescing — with `N`
concurrent callers and any event-loop schedule, the upstream endpoint is
invoked at most once per caller, i.e. at most `N` times (not exactly
once; the refutation above reaches `N`, and callers may observe
different values). -/
theorem pendingCount_replicate {Val : Type} (n : Nat) :
    pendingCount (List.replicate n (TaskPhase.ready : TaskPhase Val)) = n := by
  induction n with
  | zero => rfl
  | succ k ihk =>
    simp only [List.replicate_succ, pendingCount, List.countP_cons] at ihk ⊢
    simp [TaskPhase.isPending, ihk]

theorem news_upstream_calls_le {Val : Type} (upstream : Nat → List Val)
    (sched : List Nat) (n : Nat) :
    (newsRun upstream sched (newsInit Val n)).upstreamCalls ≤ n := by
  have h := newsRun_measure upstream sched (newsInit Val n)
  have hrep := @pendingCount_replicate Val n
  have hcalls : (newsInit Val n).upstreamCalls = 0 := rfl
  have htasks : (newsInit Val n).tasks = List.replicate n .ready := rfl
  rw [hcalls, htasks, hrep] at h
  omega

/-! ## Claim C5: gather commits only after all members -/

theorem purgeForced_recordContents_empty {Val : Type} (s : APIState Val) :
    (purgeForced s .recordContents).cachedRecordContents = [] := rfl

theorem purgeForced_chapters_eq {Val : Type} (s : APIState Val) :
    purgeForced s .chapters =
      { s with cachedChapters := none, lastFullEpisodicCache := none,
               lastCachePurge := dictSet s.lastCachePurge .chapters s.clock,
               clock := s.clock + 1 } := rfl

theorem purgeForced_records_eq {Val : Type} (s : APIState Val) :
    purgeForced s .records =
      { s with cachedRecords := [],
               lastCachePurge := dictSet s.lastCachePurge .records s.clock,
               clock := s.clock + 1 } := rfl

theorem purgeForced_recordContents_eq {Val : Type} (s : APIState Val) :
    purgeForced s .recordContents =
      { s with cachedRecordContents := [],
               lastCachePurge :=
                 dictSet s.lastCachePurge .recordContents s.clock,
               clock := s.clock + 1 } := rfl

theorem purgeForced_images_eq {Val : Type} (s : APIState Val) :
    purgeForced s .images =
      { s with cachedImages := [], lastAllImagesCache := none,
               lastCachePurge := dictSet s.lastCachePurge .images s.clock,
               clock := s.clock + 1 } := rfl

theorem purgeForced_imageDescriptions_eq {Val : Type} (s : APIState Val) :
    purgeForced s .imageDescriptions =
      { s with cachedImageDescriptions := [],
               lastCachePurge :=
                 dictSet s.lastCachePurge .imageDescriptions s.clock,
               clock := s.clock + 1 } := rfl

theorem get_full_episodic_frame {Val : Type} (s : APIState Val)
    (u : Except Unit (List (ChapterObj Val))) :
    ((get_full_episodic s u).1).cachedRecordContents =
      s.cachedRecordContents ∧
    s.clock ≤ ((get_full_episodic s u).1).clock := by
  simp only [get_full_episodic]
  split
  · cases u with
    | error e => simp
    | ok chaptersList =>
      simp only []
      split
      · constructor
        · simp [purgeForced_chapters_eq, purgeForced_records_eq]
        · simp only [purgeForced_chapters_eq, purgeForced_records_eq]
          omega
      · constructor
        · simp [purgeForced_chapters_eq, purgeForced_records_eq]
        · simp only [purgeForced_chapters_eq, purgeForced_records_eq]
          omega
  · split
    · simp
    · simp

theorem get_record_text_inv {Val : Type} (st : APIState Val) (nm : String)
    (v : Val)
    (hinv : ∀ p ∈ st.cachedRecordContents, p.2.2 < st.clock) :
    (∀ p ∈ ((get_record_text st (some nm) v).1).cachedRecordContents,
        p.2.2 < ((get_record_text st (some nm) v).1).clock) ∧
    st.clock ≤ ((get_record_text st (some nm) v).1).clock := by
  have hfetch :
      (∀ p ∈ ((recordTextFetch st (some nm) v).1).cachedRecordContents,
          p.2.2 < ((recordTextFetch st (some nm) v).1).clock) ∧
      st.clock ≤ ((recordTextFetch st (some nm) v).1).clock := by
    simp only [recordTextFetch]
    rw [if_neg (by simp)]
    refine ⟨?_, by simp⟩
    intro p hp
    rcases mem_dictSet hp with h1 | h1
    · subst h1
      simp
    · have := hinv p h1
      simp
      omega
  unfold get_record_text
  split
  · exact hfetch
  · split
    · exact hfetch
    · refine ⟨?_, by simp⟩
      intro p hp
      have := hinv p hp
      simp
      omega

theorem recordMemberStep_fst {Val : Type} (textFor : String → Val)
    (acc : APIState Val × List (String × Val)) (r : RecordObj Val) :
    (recordMemberStep textFor acc r).1 =
      (get_record_text acc.1 (some r.name) (textFor r.name)).1 := by
  unfold recordMemberStep
  rcases h : get_record_text acc.1 (some r.name) (textFor r.name) with ⟨st, res⟩
  cases res <;> simp [h]

theorem recordsFold_inv {Val : Type} (textFor : String → Val)
    (solved : List (RecordObj Val)) :
    ∀ acc : APIState Val × List (String × Val),
      (∀ p ∈ acc.1.cachedRecordContents, p.2.2 < acc.1.clock) →
      ∀ p ∈ (solved.foldl (recordMemberStep textFor)
          acc).1.cachedRecordContents,
        p.2.2 < (solved.foldl (recordMemberStep textFor) acc).1.clock := by
  induction solved with
  | nil => exact fun acc h => h
  | cons r rest ih =>
    intro acc h
    simp only [List.foldl_cons]
    apply ih
    rw [recordMemberStep_fst]
    exact (get_record_text_inv acc.1 r.name (textFor r.name) h).1

theorem recordsGatherBody_spec {Val : Type}
    (chU : Except Unit (List (ChapterObj Val))) (textFor : String → Val)
    (sp s2 : APIState Val) (out : List (String × Val))
    (h : recordsGatherBody chU textFor sp = (s2, .ok out)) :
    ∃ T m, s2.cachedFullRecordContents = some (m, T) ∧
      ∀ k v t, dictGet s2.cachedRecordContents k = some (v, t) → t ≤ T := by
  unfold recordsGatherBody at h
  rcases he : get_full_episodic
      (purgeForced (purgeForced (purgeForced sp .chapters) .records)
        .recordContents) chU with ⟨s4, eres⟩
  rw [he] at h
  cases eres with
  | error e => exact absurd (congrArg Prod.snd h) (by simp)
  | ok chaptersList =>
    simp only at h
    rw [Prod.mk.injEq] at h
    obtain ⟨hs2, _⟩ := h
    subst hs2
    have hframe := get_full_episodic_frame
      (purgeForced (purgeForced (purgeForced sp .chapters) .records)
        .recordContents) chU
    rw [he] at hframe
    simp only [purgeForced_recordContents_empty] at hframe
    have hinv4 : ∀ p ∈ s4.cachedRecordContents, p.2.2 < s4.clock := by
      intro p hp
      rw [hframe.1] at hp
      exact absurd hp (List.not_mem_nil _)
    have hfold := recordsFold_inv textFor
      (chaptersList.foldl (fun acc ch => acc ++ ch.records.filter (·.solved))
        []) (s4, []) hinv4
    refine ⟨_, _, rfl, ?_⟩
    intro k v t hget
    have hmem := dictGet_mem hget
    have := hfold _ hmem
    exact Nat.le_of_lt this

theorem get_all_images_frame {Val : Type} (s : APIState Val)
    (u : Except Unit (List (ImageObj Val))) :
    ((get_all_images s u).1).cachedImageDescriptions =
      s.cachedImageDescriptions ∧
    s.clock ≤ ((get_all_images s u).1).clock := by
  simp only [get_all_images]
  split
  · cases u with
    | error e => simp
    | ok imgs =>
      simp only []
      split
      · constructor
        · simp [purgeForced_images_eq]
        · simp only [purgeForced_images_eq]
          omega
      · constructor
        · simp [purgeForced_images_eq]
        · simp only [purgeForced_images_eq]
          omega
  · simp

theorem get_image_description_inv {Val : Type} (st : APIState Val)
    (nm : String) (v : Val)
    (hinv : ∀ p ∈ st.cachedImageDescriptions, p.2.2 < st.clock) :
    (∀ p ∈ ((get_image_description st nm v).1).cachedImageDescriptions,
        p.2.2 < ((get_image_description st nm v).1).clock) ∧
    st.clock ≤ ((get_image_description st nm v).1).clock := by
  have hfetch :
      (∀ p ∈ ((imageDescriptionFetch st nm v).1).cachedImageDescriptions,
          p.2.2 < ((imageDescriptionFetch st nm v).1).clock) ∧
      st.clock ≤ ((imageDescriptionFetch st nm v).1).clock := by
    simp only [imageDescriptionFetch]
    refine ⟨?_, by simp⟩
    intro p hp
    rcases mem_dictSet hp with h1 | h1
    · subst h1
      simp
    · have := hinv p h1
      simp
      omega
  unfold get_image_description
  split
  · exact hfetch
  · split
    · exact hfetch
    · refine ⟨?_, by simp⟩
      intro p hp
      have := hinv p hp
      simp
      omega

theorem imageMemberStep_fst {Val : Type} (descFor : String → Val)
    (acc : APIState Val × List (String × Val)) (img : ImageObj Val) :
    (imageMemberStep descFor acc img).1 =
      (get_image_description acc.1 img.name (descFor img.name)).1 := by
  unfold imageMemberStep
  rcases h : get_image_description acc.1 img.name (descFor img.name) with
    ⟨st, res⟩
  cases res <;> simp [h]

theorem imagesFold_inv {Val : Type} (descFor : String → Val)
    (imgs : List (ImageObj Val)) :
    ∀ acc : APIState Val × List (String × Val),
      (∀ p ∈ acc.1.cachedImageDescriptions, p.2.2 < acc.1.clock) →
      ∀ p ∈ (imgs.foldl (imageMemberStep descFor)
          acc).1.cachedImageDescriptions,
        p.2.2 < (imgs.foldl (imageMemberStep descFor) acc).1.clock := by
  induction imgs with
  | nil => exact fun acc h => h
  | cons img rest ih =>
    intro acc h
    simp only [List.foldl_cons]
    apply ih
    rw [imageMemberStep_fst]
    exact (get_image_description_inv acc.1 img.name (descFor img.name) h).1

theorem imagesGatherBody_spec {Val : Type}
    (imU : Except Unit (List (ImageObj Val))) (descFor : String → Val)
    (sp s2 : APIState Val) (out : List (String × Val))
    (h : imagesGatherBody imU descFor sp = (s2, .ok out)) :
    ∃ T m, s2.cachedFullImageDescriptions = some (m, T) ∧
      ∀ k v t, dictGet s2.cachedImageDescriptions k = some (v, t) → t ≤ T := by
  unfold imagesGatherBody at h
  rcases he : get_all_images
      (purgeForced (purgeForced sp .imageDescriptions) .images) imU with
    ⟨s3, ires⟩
  rw [he] at h
  cases ires with
  | error e => exact absurd (congrArg Prod.snd h) (by simp)
  | ok imgs =>
    simp only at h
    rw [Prod.mk.injEq] at h
    obtain ⟨hs2, _⟩ := h
    subst hs2
    have hframe := get_all_images_frame
      (purgeForced (purgeForced sp .imageDescriptions) .images) imU
    rw [he] at hframe
    have hempty : (purgeForced (purgeForced sp .imageDescriptions)
        .images).cachedImageDescriptions = [] := by
      simp [purgeForced_images_eq, purgeForced_imageDescriptions_eq]
    rw [hempty] at hframe
    have hinv3 : ∀ p ∈ s3.cachedImageDescriptions, p.2.2 < s3.clock := by
      intro p hp
      rw [hframe.1] at hp
      exact absurd hp (List.not_mem_nil _)
    have hfold := imagesFold_inv descFor imgs (s3, []) hinv3
    refine ⟨_, _, rfl, ?_⟩
    intro k v t hget
    have hmem := dictGet_mem hget
    have := hfold _ hmem
    exact Nat.le_of_lt this

theorem get_full_record_contents_gather_true {Val : Type} (s : APIState Val)
    (chU : Except Unit (List (ChapterObj Val))) (textFor : String → Val) :
    get_full_record_contents s (some true) chU textFor =
      match purge_cache s .fullRecordContents false with
      | (sp, .ok _) => recordsGatherBody chU textFor sp
      | (sp, .error e) =>
        if e.isCachePurgeError && sp.cachedFullRecordContents.isNone then
          recordsGatherBody chU textFor sp
        else (sp, .error e) := rfl

theorem get_full_image_descriptions_gather_true {Val : Type}
    (s : APIState Val) (imU : Except Unit (List (ImageObj Val)))
    (descFor : String → Val) :
    get_full_image_descriptions s (some true) imU descFor =
      match purge_cache s .fullImageDescriptions false with
      | (sp, .ok _) => imagesGatherBody imU descFor sp
      | (sp, .error e) =>
        if e.isCachePurgeError && sp.cachedFullImageDescriptions.isNone then
          imagesGatherBody imU descFor sp
        else (sp, .error e) := rfl

/-- Claim C5 (`__get_full_record_contents` lines 2300-2320,
`__get_full_image_descriptions` lines 2386-2403): for both bulk-capable
kinds, when a requested gather completes successfully the collection-level
timestamp is stamped only after every member fetch has resolved — in the
resulting state, every member entry's `fetchedAt` is at most the committed
collection timestamp. -/
theorem gather_commit_after_members {Val : Type} (s : APIState Val)
    (chU : Except Unit (List (ChapterObj Val))) (textFor : String → Val)
    (imU : Except Unit (List (ImageObj Val))) (descFor : String → Val) :
    (∀ s2 out,
      get_full_record_contents s (some true) chU textFor = (s2, .ok out) →
      ∃ T m, s2.cachedFullRecordContents = some (m, T) ∧
        ∀ k v t, dictGet s2.cachedRecordContents k = some (v, t) → t ≤ T) ∧
    (∀ s2 out,
      get_full_image_descriptions s (some true) imU descFor =
        (s2, .ok out) →
      ∃ T m, s2.cachedFullImageDescriptions = some (m, T) ∧
        ∀ k v t, dictGet s2.cachedImageDescriptions k = some (v, t) →
          t ≤ T) := by
  constructor
  · intro s2 out h
    rw [get_full_record_contents_gather_true] at h
    rcases hp : purge_cache s .fullRecordContents false with ⟨sp, res⟩
    rw [hp] at h
    cases res with
    | ok u => exact recordsGatherBody_spec chU textFor sp s2 out h
    | error e =>
      have h2 : (if (e.isCachePurgeError &&
            sp.cachedFullRecordContents.isNone) = true then
          recordsGatherBody chU textFor sp
        else (sp, .error e)) = (s2, .ok out) := h
      by_cases hc :
          (e.isCachePurgeError && sp.cachedFullRecordContents.isNone) = true
      · rw [if_pos hc] at h2
        exact recordsGatherBody_spec chU textFor sp s2 out h2
      · rw [if_neg hc] at h2
        exact absurd (congrArg Prod.snd h2) (by simp)
  · intro s2 out h
    rw [get_full_image_descriptions_gather_true] at h
    rcases hp : purge_cache s .fullImageDescriptions false with ⟨sp, res⟩
    rw [hp] at h
    cases res with
    | ok u => exact imagesGatherBody_spec imU descFor sp s2 out h
    | error e =>
      have h2 : (if (e.isCachePurgeError &&
            sp.cachedFullImageDescriptions.isNone) = true then
          imagesGatherBody imU descFor sp
        else (sp, .error e)) = (s2, .ok out) := h
      by_cases hc :
          (e.isCachePurgeError && sp.cachedFullImageDescriptions.isNone) = true
      · rw [if_pos hc] at h2
        exact imagesGatherBody_spec imU descFor sp s2 out h2
      · rw [if_neg hc] at h2
        exact absurd (congrArg Prod.snd h2) (by simp)

theorem gather_commit_after_members_witness :
    (∃ T m,
      (get_full_record_contents (initState Nat) (some true)
          (.ok [⟨"ch1", [⟨"r1", true, 7⟩]⟩])
          (fun _ => 42)).1.cachedFullRecordContents = some (m, T) ∧
      ∀ k v t,
        dictGet (get_full_record_contents (initState Nat) (some true)
            (.ok [⟨"ch1", [⟨"r1", true, 7⟩]⟩])
            (fun _ => 42)).1.cachedRecordContents k = some (v, t) →
          t ≤ T) ∧
    (∃ T m,
      (get_full_image_descriptions (initState Nat) (some true)
          (.ok [⟨"i1", 9⟩])
          (fun _ => 5)).1.cachedFullImageDescriptions = some (m, T) ∧
      ∀ k v t,
        dictGet (get_full_image_descriptions (initState Nat) (some true)
            (.ok [⟨"i1", 9⟩])
            (fun _ => 5)).1.cachedImageDescriptions k = some (v, t) →
          t ≤ T) := by
  have hth := gather_commit_after_members (initState Nat)
    (.ok [⟨"ch1", [⟨"r1", true, 7⟩]⟩]) (fun _ => 42)
    (.ok [⟨"i1", 9⟩]) (fun _ => 5)
  constructor
  · exact hth.1 _ [("r1", 42)] (by decide)
  · exact hth.2 _ [("i1", 5)] (by decide)

end Fractalrhomb
